import Mathlib

/-!
Verification model of the deterministic script compiler in
`src/app/agentic_script_agent.py` (guideware test script generation).

Strings are modelled as `List Char` (`Str`); each Lean definition is a
shallow embedding of the Python function of the same (or near-same) name.
Python truthiness on strings (empty string is falsy) is modelled explicitly;
optional/missing dict fields are `Option Str` with `none` for absent keys.
-/

namespace GW

abbrev Str := List Char

/-- Whitespace set of Python `str.strip` / `\s` (ASCII fragment). -/
def isPyWs (c : Char) : Bool :=
  c = ' ' || c = '\t' || c = '\n' || c = '\r' || c = '\x0b' || c = '\x0c'

/-- Python `str.strip()`: drop leading and trailing whitespace. -/
def pyStrip (s : Str) : Str :=
  ((s.dropWhile isPyWs).reverse.dropWhile isPyWs).reverse

/-- Python `str.lower()` (ASCII model). -/
def pyLower (s : Str) : Str := s.map Char.toLower

/-- Python `str.isdigit()` (ASCII model): non-empty and all digits. -/
def isDigitStr (s : Str) : Bool := !s.isEmpty && s.all Char.isDigit

/-- Bool test for a prefix, `hay` starts with `needle`. -/
def strStartsWith : Str → Str → Bool
  | _, [] => true
  | [], _ :: _ => false
  | c :: cs, d :: ds => c = d && strStartsWith cs ds

/-- Python `needle in hay` substring containment. -/
def containsStr (needle : Str) : Str → Bool
  | [] => needle.isEmpty
  | c :: rest => strStartsWith (c :: rest) needle || containsStr needle rest

theorem lengthDropWhileLe (p : Char → Bool) (l : Str) :
    (l.dropWhile p).length ≤ l.length := by
  induction l with
  | nil => simp
  | cons c rest ih =>
    by_cases h : p c
    · simp only [List.dropWhile_cons, h, if_true]
      exact Nat.le_succ_of_le ih
    · simp [List.dropWhile_cons, h]

/-- Scanner for `collapseWs`; the flag records being inside a whitespace
run whose single replacement space was already emitted. -/
def collapseWsAux : Bool → Str → Str
  | _, [] => []
  | inRun, c :: rest =>
    if isPyWs c then
      if inRun then collapseWsAux true rest
      else ' ' :: collapseWsAux true rest
    else c :: collapseWsAux false rest

/-- Collapse each whitespace run into a single space, Python `re.sub(r"\s+", " ", s)`. -/
def collapseWs (s : Str) : Str := collapseWsAux false s

/-- Python `line.split(sep, 1)`: the piece before the first separator, and
the remainder after it when the separator occurs. -/
def splitOnce (sep : Char) (s : Str) : Str × Option Str :=
  if sep ∈ s then (s.takeWhile (· ≠ sep), some ((s.dropWhile (· ≠ sep)).tail))
  else (s, none)

/-- Character of a decimal digit. -/
def digitChar (d : Nat) : Char := Char.ofNat (48 + d)

/-- Fuel-driven digit rendering; the fuel always suffices below. -/
def natDigitsAux : Nat → Nat → Str
  | 0, _ => []
  | fuel + 1, n =>
    if n < 10 then [digitChar n]
    else natDigitsAux fuel (n / 10) ++ [digitChar (n % 10)]

/-- Decimal digit string of a natural number, mirroring Python `str(n)`. -/
def natDigits (n : Nat) : Str := natDigitsAux (n + 1) n

/-- Python `str(n)` for a natural number. -/
def natRepr (n : Nat) : Str := natDigits n

/-- Value read back from a digit string. -/
def digitsVal (s : Str) : Nat := s.foldl (fun acc c => acc * 10 + (c.toNat - 48)) 0

theorem digitsVal_append_last (xs : Str) (c : Char) :
    digitsVal (xs ++ [c]) = 10 * digitsVal xs + (c.toNat - 48) := by
  simp [digitsVal, List.foldl_append, Nat.mul_comm]

theorem digitChar_toNat {d : Nat} (h : d < 10) : (digitChar d).toNat = 48 + d := by
  interval_cases d <;> decide

theorem digitsVal_natDigitsAux (fuel : Nat) :
    ∀ n, n ≤ fuel → digitsVal (natDigitsAux (fuel + 1) n) = n := by
  induction fuel with
  | zero =>
    intro n hn
    have h0 : n = 0 := Nat.le_zero.mp hn
    subst h0
    decide
  | succ fuel ih =>
    intro n hn
    by_cases h : n < 10
    · simp [natDigitsAux, h, digitsVal, digitChar_toNat h]
    · have hdiv : n / 10 ≤ fuel := by
        have hlt : n / 10 < n := Nat.div_lt_self (by omega) (by omega)
        omega
      have hne : ¬ n < 10 := h
      calc digitsVal (natDigitsAux (fuel + 1 + 1) n)
          = digitsVal (natDigitsAux (fuel + 1) (n / 10) ++ [digitChar (n % 10)]) := by
            rw [show natDigitsAux (fuel + 1 + 1) n =
              (if n < 10 then [digitChar n]
               else natDigitsAux (fuel + 1) (n / 10) ++ [digitChar (n % 10)]) from rfl,
              if_neg hne]
        _ = 10 * digitsVal (natDigitsAux (fuel + 1) (n / 10)) + ((digitChar (n % 10)).toNat - 48) :=
            digitsVal_append_last _ _
        _ = n := by
            rw [ih (n / 10) hdiv, digitChar_toNat (Nat.mod_lt _ (by omega))]
            omega

theorem digitsVal_natDigits (n : Nat) : digitsVal (natDigits n) = n :=
  digitsVal_natDigitsAux n n (Nat.le_refl n)

theorem natRepr_injective : Function.Injective natRepr := by
  intro a b h
  have ha := digitsVal_natDigits a
  have hb := digitsVal_natDigits b
  rw [show natDigits a = natRepr a from rfl, h,
    show natRepr b = natDigits b from rfl] at ha
  omega

theorem natDigits_ne_nil (n : Nat) : natDigits n ≠ [] := by
  unfold natDigits natDigitsAux
  by_cases h : n < 10 <;> simp [h]

/-- Candidate identifiers tried by the collision loops in
`_build_deterministic_payload`: the bare base name first, then
`base2`, `base3`, ... -/
def suffixName (base : Str) : Nat → Str
  | 0 => base
  | k + 1 => base ++ natRepr (k + 2)

theorem suffixName_injective (base : Str) : Function.Injective (suffixName base) := by
  intro a b h
  match a, b with
  | 0, 0 => rfl
  | 0, k + 1 =>
    exfalso
    have hlen := congrArg List.length h
    rw [show suffixName base 0 = base from rfl,
      show suffixName base (k + 1) = base ++ natDigits (k + 2) from rfl,
      List.length_append] at hlen
    exact natDigits_ne_nil (k + 2) (List.length_eq_zero.mp (by omega))
  | j + 1, 0 =>
    exfalso
    have hlen := congrArg List.length h
    rw [show suffixName base (j + 1) = base ++ natDigits (j + 2) from rfl,
      show suffixName base 0 = base from rfl,
      List.length_append] at hlen
    exact natDigits_ne_nil (j + 2) (List.length_eq_zero.mp (by omega))
  | j + 1, k + 1 =>
    simp only [suffixName] at h
    have h2 := List.append_cancel_left h
    have := natRepr_injective h2
    omega

/-- The `while key in used: key = base + str(suffix); suffix += 1` loop,
with enough fuel to always find a free candidate. -/
def freshNameAux (base : Str) (used : List Str) : Nat → Nat → Str
  | 0, k => suffixName base k
  | fuel + 1, k =>
    if suffixName base k ∈ used then freshNameAux base used fuel (k + 1)
    else suffixName base k

/-- Collision-free identifier: bare base first, then incrementing numeric
suffix starting at 2, first candidate not already used. -/
def freshName (base : Str) (used : List Str) : Str :=
  freshNameAux base used (used.length + 1) 0

theorem freshNameAux_spec (base : Str) (used : List Str) (fuel k : Nat)
    (h : ∃ j, j ≤ fuel ∧ suffixName base (k + j) ∉ used) :
    freshNameAux base used fuel k ∉ used ∧
      ∃ j, freshNameAux base used fuel k = suffixName base (k + j) ∧
        ∀ i < j, suffixName base (k + i) ∈ used := by
  induction fuel generalizing k with
  | zero =>
    obtain ⟨j, hj, hnot⟩ := h
    have hj0 : j = 0 := Nat.le_zero.mp hj
    subst hj0
    simp only [Nat.add_zero] at hnot
    exact ⟨hnot, 0, rfl, by omega⟩
  | succ fuel ih =>
    by_cases hmem : suffixName base k ∈ used
    · obtain ⟨j, hj, hnot⟩ := h
      have hjpos : j ≠ 0 := by
        intro h0; subst h0; simp at hnot; exact hnot hmem
      obtain ⟨j', rfl⟩ := Nat.exists_eq_succ_of_ne_zero hjpos
      have hrec := ih (k + 1) ⟨j', by omega, by
        have : k + 1 + j' = k + (j' + 1) := by omega
        rw [this]; exact hnot⟩
      simp only [freshNameAux, if_pos hmem]
      refine ⟨hrec.1, ?_⟩
      obtain ⟨j2, heq, hall⟩ := hrec.2
      refine ⟨j2 + 1, by rw [heq]; congr 1; omega, ?_⟩
      intro i hi
      cases i with
      | zero => simpa using hmem
      | succ i' =>
        have : k + (i' + 1) = k + 1 + i' := by omega
        rw [this]
        exact hall i' (by omega)
    · simp only [freshNameAux, if_neg hmem]
      exact ⟨hmem, 0, rfl, by omega⟩

theorem exists_fresh_suffix (base : Str) (used : List Str) :
    ∃ j, j ≤ used.length + 1 ∧ suffixName base j ∉ used := by
  by_contra hcon
  push_neg at hcon
  have hall : ∀ j ≤ used.length, suffixName base j ∈ used := by
    intro j hj
    exact hcon j (by omega)
  set L := (List.range (used.length + 1)).map (suffixName base) with hL
  have hnodup : L.Nodup := (List.nodup_range _).map (suffixName_injective base)
  have hsub : L ⊆ used := by
    intro x hx
    rw [hL, List.mem_map] at hx
    obtain ⟨j, hj, rfl⟩ := hx
    rw [List.mem_range] at hj
    exact hall j (by omega)
  have hlen : L.length ≤ used.length := (List.subperm_of_subset hnodup hsub).length_le
  rw [hL, List.length_map, List.length_range] at hlen
  omega

/-- Main correctness of the collision loop: the chosen name is unused,
it is the first candidate in the sequence base, base2, base3, ...
that is unused (so the bare name is tried first). -/
theorem freshName_spec (base : Str) (used : List Str) :
    freshName base used ∉ used ∧
      ∃ j, freshName base used = suffixName base j ∧
        ∀ i < j, suffixName base i ∈ used := by
  obtain ⟨j, hj, hnot⟩ := exists_fresh_suffix base used
  have := freshNameAux_spec base used (used.length + 1) 0 ⟨j, hj, by simpa using hnot⟩
  simpa [freshName] using this

theorem freshName_not_mem (base : Str) (used : List Str) :
    freshName base used ∉ used := (freshName_spec base used).1

theorem freshName_of_not_mem (base : Str) (used : List Str) (h : base ∉ used) :
    freshName base used = base := by
  unfold freshName freshNameAux
  simp [show suffixName base 0 = base from rfl, h]

/-! Selector normalization, `_normalize_selector` in the source. -/

/-- Structural CSS markers checked by `_normalize_selector`. -/
def hasStructureMarkers (raw : Str) : Bool :=
  containsStr (" > ".data) raw || containsStr (":nth-child(".data) raw ||
  containsStr (":nth-of-type(".data) raw || containsStr (" + ".data) raw ||
  containsStr (" ~ ".data) raw

/-- Characters of the cut set `[ \t\r\n>+~,.\x5b]` ending the id fragment. -/
def isCutChar (c : Char) : Bool :=
  c = ' ' || c = '\t' || c = '\r' || c = '\n' || c = '>' || c = '+' ||
  c = '~' || c = ',' || c = '.' || c = '['

/-- Fragment after the first `#`, cut at the first delimiter, trimmed. -/
def idFragment (raw : Str) : Str :=
  pyStrip (((raw.dropWhile (· ≠ '#')).tail).takeWhile (fun c => !isCutChar c))

/-- Python `fragment.replace(chr(34), backslash + chr(34))`. -/
def escapeQuote : Str → Str
  | [] => []
  | c :: rest => if c = '"' then '\\' :: '"' :: escapeQuote rest
                 else c :: escapeQuote rest

/-- Attribute-equality XPath rendering of an id fragment, with the
engine-selection prefix emitted by the source. -/
def xpathIdForm (frag : Str) : Str :=
  ("xpath=//*[@id=".data) ++ '"' :: (escapeQuote frag ++ ['"', ']'])

/-- Word or dash character, regex `[\w-]` (ASCII model). -/
def isWordDash (c : Char) : Bool := c.isAlphanum || c = '_' || c = '-'

/-- Scanner for `stripPipes`. State 0: normal; state 1: a pipe was read and
awaits its next character; state 2: inside an identifier being dropped. -/
def stripPipesAux : Nat → Str → Str
  | st, [] => if st = 1 then ['|'] else []
  | 0, c :: rest =>
    if c = '|' then stripPipesAux 1 rest else c :: stripPipesAux 0 rest
  | 1, c :: rest =>
    if c.isAlpha then stripPipesAux 2 rest
    else if c = '|' then '|' :: stripPipesAux 1 rest
    else '|' :: c :: stripPipesAux 0 rest
  | 2, c :: rest =>
    if isWordDash c then stripPipesAux 2 rest
    else if c = '|' then stripPipesAux 1 rest
    else c :: stripPipesAux 0 rest
  | _ + 3, l => l

/-- Python `re.sub(r"\x7c[a-zA-Z][\w-]*", "", raw)`: drop each pipe that
introduces an identifier, together with that identifier. -/
def stripPipes (s : Str) : Str := stripPipesAux 0 s

/-- Combinator characters whose surrounding whitespace is removed. -/
def isCombi (c : Char) : Bool := c = '>' || c = '+' || c = '~' || c = ','

/-- Scanner for `tighten`. `pend` buffers a whitespace run not yet known to
precede a combinator; `afterC` drops the whitespace that follows one. -/
def tightenAux : Str → Bool → Str → Str
  | pend, _, [] => pend
  | pend, afterC, c :: rest =>
    if isPyWs c then
      if afterC then tightenAux pend true rest
      else tightenAux (pend ++ [c]) false rest
    else if isCombi c then c :: tightenAux [] true rest
    else pend ++ c :: tightenAux [] false rest

/-- Python `re.sub(r"\s*([>+~,])\s*", r"\1", s)`: remove whitespace around
combinators, left to right. -/
def tighten (s : Str) : Str := tightenAux [] false s

/-- The non-id normalization path: strip namespace pipes, collapse
whitespace, tighten combinator spacing, strip. -/
def cssNorm (raw : Str) : Str := pyStrip (tighten (collapseWs (stripPipes raw)))

/-- Shallow embedding of `_normalize_selector` (the `raw` local of the
source is `pyStrip s`). -/
def normalize_selector (s : Str) : Str :=
  if s = [] then []
  else if '#' ∈ pyStrip s ∧ hasStructureMarkers (pyStrip s) = false ∧ idFragment (pyStrip s) ≠ []
  then xpathIdForm (idFragment (pyStrip s))
  else cssNorm (pyStrip s)

example : normalize_selector ("#invoiceId".data) = ("xpath=//*[@id=\"invoiceId\"]").data := by
  decide

example : normalize_selector ("div > span:nth-child(2)".data) =
    ("div>span:nth-child(2)".data) := by decide

/-! Step records (canonicalized recorder steps) and their helpers. -/

/-- Locator candidate set of a step, `step["locators"]`; `none` models an
absent dictionary key. -/
structure Locators where
  css : Option Str := none
  playwright : Option Str := none
  stable : Option Str := none
  xpath : Option Str := none
  raw_xpath : Option Str := none
  selector : Option Str := none
  name : Option Str := none
  title : Option Str := none
  labels : Option Str := none
deriving DecidableEq

/-- Nested element metadata, `step["element"]`. -/
structure ElementInfo where
  css : Option Str := none
  playwright : Option Str := none
  stable : Option Str := none
  xpath : Option Str := none
  raw_xpath : Option Str := none
deriving DecidableEq

/-- A recorded step as consumed by the compiler. `step` is the recorded
1-based ordinal from the flow document; the compiler never reads it. -/
structure Step where
  step : Option Nat := none
  action : Option Str := none
  navigation : Option Str := none
  data : Option Str := none
  expected : Option Str := none
  locators : Option Locators := none
  element : Option ElementInfo := none
  original_url : Option Str := none
deriving DecidableEq

/-- Python `step.get(k) or ""`. -/
def orEmpty : Option Str → Str
  | some s => s
  | none => []

/-- Python chained `a or b or ...` over string fields: first truthy value,
empty when all are falsy. -/
def firstTruthy : List (Option Str) → Str
  | [] => []
  | o :: rest =>
    match o with
    | some s => if s ≠ [] then s else firstTruthy rest
    | none => firstTruthy rest

/-- Shallow embedding of `_step_signature`. -/
def step_signature (st : Step) : Str :=
  pyLower (pyStrip (orEmpty st.action)) ++ '|' ::
    (pyLower (pyStrip (orEmpty st.navigation)) ++ '|' :: pyLower (pyStrip (orEmpty st.data)))

/-- Shallow embedding of `_extract_data_value`. -/
def extract_data_value (st : Step) : Str :=
  match st.data with
  | some d =>
    let t := pyStrip d
    if t = [] then []
    else if ':' ∈ t then pyStrip ((t.dropWhile (· ≠ ':')).tail)
    else t
  | none => []

/-- Capture class `[a-z0-9 _-]` of the data-key regex, case-insensitive. -/
def isKeyChar (c : Char) : Bool :=
  c.isAlpha || c.isDigit || c = ' ' || c = '_' || c = '-'

/-- Match of regex `enter\s+([a-z0-9 _-]+)` (ignore-case) at the head of
`l`, returning the captured group. When the greedy whitespace run is not
followed by a capture character, the regex engine backtracks one step and
captures a single space, provided the run has length at least two and ends
in a plain space. -/
def matchEnterCapture (l : Str) : Option Str :=
  if pyLower (l.take 5) = ("enter".data) then
    let after := l.drop 5
    let w := after.takeWhile isPyWs
    if w = [] then none
    else
      let b := (after.drop w.length).takeWhile isKeyChar
      if b ≠ [] then some b
      else if ' ' ∈ w.drop 1 then some [' ']
      else none
  else none

/-- Leftmost match of the data-key regex anywhere in the text. -/
def searchEnterKey : Str → Option Str
  | [] => none
  | c :: rest =>
    match matchEnterCapture (c :: rest) with
    | some cap => some cap
    | none => searchEnterKey rest

/-- Data key inferred from `enter <key>` in the navigation text. -/
def navEnterKey (st : Step) : Str :=
  match st.navigation with
  | some nav =>
    match searchEnterKey (pyStrip nav) with
    | some cap => pyStrip cap
    | none => []
  | none => []

/-- Shallow embedding of `_extract_data_key`. -/
def extract_data_key (st : Step) : Str :=
  match st.data with
  | some d =>
    if ':' ∈ d then pyStrip (d.takeWhile (· ≠ ':'))
    else navEnterKey st
  | none => navEnterKey st

/-- Shallow embedding of `_normalize_for_match`: lowercase, collapse
whitespace, strip quotes. -/
def normalize_for_match (text : Str) : Str :=
  (collapseWs (pyLower (pyStrip text))).filter
    (fun c => !(c = Char.ofNat 39 || c = '"'))

/-! Preview parsing, `_extract_preview_signatures` / `_extract_preview_phrases`. -/

/-- Data value of a signature line: last pipe segment starting with
`data:`, with the text after the colon trimmed. Segments arrive already
trimmed and lowercased. -/
def lastDataSeg (segs : List Str) : Str :=
  segs.foldl
    (fun acc seg =>
      if strStartsWith seg ("data:".data) then pyStrip ((seg.dropWhile (· ≠ ':')).tail)
      else acc)
    []

/-- Signature parsed from one preview line, when the line parses. -/
def parsePreviewLine (rawLine : Str) : Option Str :=
  let line := pyStrip rawLine
  if hline : line = [] then none
  else
    let line2 :=
      if (line.head (by simpa using hline)).isDigit then
        match splitOnce ' ' line with
        | (_, some restPart) => pyStrip restPart
        | (_, none) => line
      else line
    if '|' ∈ line2 then
      match (line2.splitOn '|').map (fun seg => pyLower (pyStrip seg)) with
      | [] => none
      | action :: restSegs =>
        some (action ++ '|' :: (restSegs.headD [] ++ '|' :: lastDataSeg (restSegs.drop 1)))
    else none

/-- Shallow embedding of `_extract_preview_signatures`: `none` when the
preview is empty or fewer than 2 lines parse; otherwise the distinct
signatures. -/
def extract_preview_signatures (preview : Str) : Option (List Str) :=
  if preview = [] then none
  else
    let parsed := (preview.splitOn '\n').filterMap parsePreviewLine
    if parsed.length < 2 then none
    else some parsed.dedup

/-- Numbering-strip step of `_extract_preview_phrases`; `none` models the
IndexError the source raises when a bare all-digit line has no second
token. -/
def phraseLineAdjust (line : Str) : Option Str :=
  match line with
  | [] => some []
  | c :: _ =>
    if c.isDigit then
      let parts := splitOnce ' ' line
      if parts.1.getLast? = some '.' then
        if parts.2.isSome && isDigitStr parts.1.dropLast then
          some (pyStrip (parts.2.getD []))
        else some line
      else if isDigitStr parts.1 then
        match parts.2 with
        | some tailPart => some (pyStrip tailPart)
        | none => none
      else some line
    else some line

/-- Phrases contributed by one preview line (`none` = source IndexError). -/
def phraseFromLine (rawLine : Str) : Option (List Str) :=
  let line := pyStrip rawLine
  if line = [] then some []
  else
    match phraseLineAdjust line with
    | none => none
    | some line2 =>
      if '|' ∈ line2 then
        match (line2.splitOn '|').map pyStrip with
        | [] => some []
        | a :: rest =>
          some ([normalize_for_match a] ++
            (match rest with | n :: _ => [normalize_for_match n] | [] => []))
      else some [normalize_for_match line2]

/-- Phrase lists of all lines, crash-propagating. -/
def phrasesOfLines : List Str → Option (List Str)
  | [] => some []
  | line :: rest =>
    match phraseFromLine line, phrasesOfLines rest with
    | some ps, some more => some (ps ++ more)
    | _, _ => none

/-- Shallow embedding of `_extract_preview_phrases`: the distinct non-empty
normalized phrases, or `none` when the source would raise. -/
def extract_preview_phrases (preview : Str) : Option (List Str) :=
  if preview = [] then some []
  else (phrasesOfLines (preview.splitOn '\n')).map
    (fun ps => ps.dedup.filter (fun p => p ≠ []))

/-- The `_matches_phrase` closure of `generate_script_payload`. -/
def matchesPhrase (phrases : List Str) (st : Step) : Bool :=
  let nav := normalize_for_match (firstTruthy [st.navigation, st.action])
  if nav = [] then false
  else phrases.any (fun phrase =>
    phrase ≠ [] && (containsStr phrase nav || containsStr nav phrase))

/-! Camel-casing, `_to_camel_case`. -/

/-- Lowercase ASCII letter or digit. -/
def isLowerNum (c : Char) : Bool := c.isLower || c.isDigit

/-- Replace quote and underscore characters by spaces; runs become single
spaces after the subsequent whitespace collapse, as in the source regex. -/
def camelPreClean (s : Str) : Str :=
  s.map (fun c => if c = Char.ofNat 39 || c = '"' || c = '_' then ' ' else c)

/-- Scanner of regex `[^a-z0-9]+(.)?` replacement: drop non-alphanumeric
runs and uppercase the character following each run. -/
def camelCoreAux : Bool → Str → Str
  | _, [] => []
  | false, c :: rest =>
    if isLowerNum c then c :: camelCoreAux false rest else camelCoreAux true rest
  | true, c :: rest =>
    if isLowerNum c then c.toUpper :: camelCoreAux false rest else camelCoreAux true rest

/-- Shallow embedding of `_to_camel_case`. -/
def to_camel_case (s : Str) : Str :=
  camelCoreAux false (pyLower (pyStrip (collapseWs (camelPreClean s))))

example : to_camel_case ("Enter Supplier".data) = ("enterSupplier".data) := by decide
example : to_camel_case ("a_b'c".data) = ("aBC".data) := by decide
example : to_camel_case ("123 abc".data) = ("123Abc".data) := by decide
example : to_camel_case ("!!!".data) = [] := by decide

/-- Python `s[:1].upper() + s[1:]`. -/
def capitalizeFirst : Str → Str
  | [] => []
  | c :: rest => c.toUpper :: rest

/-- Scanner of Python `str.title()` (reached only on an unreachable source
branch, modelled for completeness). -/
def pyTitleAux : Bool → Str → Str
  | _, [] => []
  | prevAlpha, c :: rest =>
    if c.isAlpha then (if prevAlpha then c.toLower else c.toUpper) :: pyTitleAux true rest
    else c :: pyTitleAux false rest

/-- Python `str.title()`. -/
def pyTitle (s : Str) : Str := pyTitleAux false s

/-! The deterministic build, `_build_deterministic_payload`. -/

/-- Authentication-related key fragments checked against the derived key. -/
def loginKeyCandidates : List Str :=
  ["username", "userid", "user", "signin", "sign_in", "password",
   "enterpasscode", "passcode", "verify"].map String.data

/-- Authentication-related phrases checked against the navigation text. -/
def loginKeywords : List Str :=
  ["user name", "username", "password", "sign in", "signin", "passcode",
   "verify", "login page"].map String.data

/-- One data binding record of the build. -/
structure Binding where
  locator_key : Str
  data_key : Str
  normalised : Str
  method_name : Str
  fallback : Str
  action_category : Str
deriving DecidableEq

/-- One `step_ref` record of the build. `selector` additionally records the
resolved selector of the step (the loop-local `selector` variable), kept
here so theorems can speak about it. -/
structure StepRef where
  key : Str
  action : Str
  data : Str
  raw : Step
  selector : Str
  handled_by : Option Str := none
  data_key : Option Str := none
  method_name : Option Str := none
  action_category : Option Str := none
deriving DecidableEq

/-- Accumulated state of the build loop. -/
structure BuildState where
  selector_to_key : List (Str × Str) := []
  used_keys : List Str := []
  entries : List (Str × Str) := []
  entry_keys : List Str := []
  step_refs : List StepRef := []
  data_bindings : List Binding := []
  method_names : List Str := []
deriving DecidableEq

/-- Compiler failure modes. `noSelector` carries the 1-based position the
error message names together with the step's action and navigation;
`phraseCrash` models the IndexError of `_extract_preview_phrases`. -/
inductive CompileError where
  | noSteps : CompileError
  | phraseCrash : CompileError
  | noSelector (ordinal : Nat) (action navigation : Option Str) : CompileError
deriving DecidableEq

/-- Dictionary lookup over an association list (first match). -/
def lookupStr : List (Str × Str) → Str → Option Str
  | [], _ => none
  | (x, y) :: rest, a => if x = a then some y else lookupStr rest a

/-- Locator resolution for one step: the step's own locator set in priority
order css, playwright, stable, xpath, raw_xpath, selector; then the nested
element's set. -/
def resolveSelector (st : Step) : Str :=
  let l := st.locators
  let s1 := normalize_selector (firstTruthy
    [l.bind (·.css), l.bind (·.playwright), l.bind (·.stable),
     l.bind (·.xpath), l.bind (·.raw_xpath), l.bind (·.selector)])
  if s1 ≠ [] then s1
  else
    let e := st.element
    normalize_selector (firstTruthy
      [e.bind (·.css), e.bind (·.playwright), e.bind (·.stable),
       e.bind (·.xpath), e.bind (·.raw_xpath)])

/-- Literal `step<n>`. -/
def stepLit (n : Nat) : Str := ("step".data) ++ natRepr n

/-- Symbol assignment for a resolved selector: reuse the existing key of an
identical selector, otherwise derive a base identifier and disambiguate it
against the used keys; returns the key with the updated selector map and
used-key set. -/
def assignKey (index : Nat) (st : Step) (selector : Str) (s : BuildState) :
    Str × List (Str × Str) × List Str :=
  match lookupStr s.selector_to_key selector with
  | some k => (k, s.selector_to_key, s.used_keys)
  | none =>
    let base_name :=
      let ft := firstTruthy
        [st.locators.bind (·.name), st.locators.bind (·.title), st.locators.bind (·.labels),
         st.navigation, st.action]
      if ft = [] then stepLit (index + 1) else ft
    let base_key :=
      let ck := to_camel_case base_name
      if ck = [] then stepLit (index + 1) else ck
    let key := freshName base_key s.used_keys
    (key, s.selector_to_key ++ [(selector, key)], s.used_keys ++ [key])

/-- Login diversion test of one step under its assigned key. -/
def isLoginStep (loginFound : Bool) (st : Step) (key : Str) : Bool :=
  loginFound &&
    (loginKeywords.any (fun t => containsStr t (pyLower (orEmpty st.navigation))) ||
     loginKeyCandidates.any (fun c => containsStr c (pyLower key)))

/-- Data-binding inference for one step: a binding is created when the step
carries a non-empty data key and was not diverted to login handling. -/
def inferBinding (st : Step) (key : Str) (handled : Bool) (methods : List Str) :
    Option Binding :=
  if extract_data_key st ≠ [] && !handled then
    let nav_lower := pyLower (orEmpty st.navigation)
    let action_lower := pyLower (orEmpty st.action)
    let action_category : Str :=
      if containsStr ("select".data) action_lower ||
         containsStr ("dropdown".data) nav_lower ||
         containsStr ("choose".data) nav_lower
      then "select".data else "fill".data
    let method_suffix0 := firstTruthy
      [some (to_camel_case (extract_data_key st)),
       some (to_camel_case (orEmpty st.navigation)), some key]
    let method_suffix :=
      if method_suffix0 ≠ [] then capitalizeFirst method_suffix0 else pyTitle key
    let pre : Str := if action_category = ("select".data) then "select".data else "set".data
    let cand0 := pre ++ capitalizeFirst method_suffix
    some { locator_key := key, data_key := extract_data_key st,
           normalised := (pyLower (extract_data_key st)).filter isLowerNum,
           method_name := freshName cand0 methods,
           fallback := extract_data_value st,
           action_category := action_category }
  else none

/-- State update for one retained, resolvable step: symbol assignment,
login diversion, entry list, and data-binding inference. -/
def stepUpdate (loginFound : Bool) (index : Nat) (st : Step) (selector : Str)
    (s : BuildState) : BuildState :=
  let km := assignKey index st selector s
  let key := km.1
  let handled := isLoginStep loginFound st key
  let ob := inferBinding st key handled s.method_names
  let addEntry : Bool := !handled && !(key ∈ s.entry_keys)
  let ref : StepRef :=
    { key := key,
      action := pyLower (orEmpty st.action),
      data := extract_data_value st,
      raw := st,
      selector := selector,
      handled_by := if handled then some ("login".data) else none,
      data_key := ob.map (·.data_key),
      method_name := ob.map (·.method_name),
      action_category := ob.map (·.action_category) }
  { selector_to_key := km.2.1,
    used_keys := km.2.2,
    entries := if addEntry then s.entries ++ [(key, selector)] else s.entries,
    entry_keys := if addEntry then s.entry_keys ++ [key] else s.entry_keys,
    step_refs := s.step_refs ++ [ref],
    data_bindings :=
      match ob with
      | some b => s.data_bindings ++ [b]
      | none => s.data_bindings,
    method_names :=
      match ob with
      | some b => s.method_names ++ [b.method_name]
      | none => s.method_names }

/-- In-loop signature re-check (`signature not in keep_signatures`). -/
def keepSkip : Option (List Str) → Str → Bool
  | some sigs, sig => !(decide (sig ∈ sigs))
  | none, _ => false

/-- The main loop of `_build_deterministic_payload` over
`effective_steps`, with `index` the enumeration counter. -/
def buildLoop (loginFound : Bool) (keep : Option (List Str)) :
    List Step → Nat → BuildState → Except CompileError BuildState
  | [], _, s => .ok s
  | st :: rest, index, s =>
    if keepSkip keep (step_signature st) then
      buildLoop loginFound keep rest (index + 1) s
    else
      let selector := resolveSelector st
      if selector = [] then .error (.noSelector (index + 1) st.action st.navigation)
      else buildLoop loginFound keep rest (index + 1) (stepUpdate loginFound index st selector s)

/-- Guard dropping a signature set of fewer than 2 entries
(`if keep_signatures is not None and len(keep_signatures) < 2`). -/
def normKeep : Option (List Str) → Option (List Str)
  | some sigs => if sigs.length < 2 then none else some sigs
  | none => none

/-- The `effective_steps` computation: filtered steps, falling back to the
full list when the filter empties it. -/
def effectiveSteps (steps : List Step) (keep : Option (List Str)) : List Step :=
  match keep with
  | some sigs =>
    let f := steps.filter (fun st => decide (step_signature st ∈ sigs))
    if f = [] then steps else f
  | none => steps

/-- Result of the deterministic build: the final loop state plus the
`effective_steps` list it iterated (kept for specification purposes). -/
structure Payload where
  state : BuildState
  effective : List Step
deriving DecidableEq

/-- Shallow embedding of `_build_deterministic_payload` (the artifact
strings are rendered from `state`; their structure is modelled by the
emit functions below). -/
def build_deterministic_payload (loginFound : Bool) (steps : List Step)
    (keep0 : Option (List Str)) : Except CompileError Payload :=
  (buildLoop loginFound (normKeep keep0) (effectiveSteps steps (normKeep keep0)) 0 {}).map
    (fun s => { state := s, effective := effectiveSteps steps (normKeep keep0) })

/-- Shallow embedding of `generate_script_payload` (the steps fetched from
the vector store and the discovery of a login page artifact are inputs). -/
def generate_script_payload (loginFound : Bool) (steps : List Step) (preview : Str) :
    Except CompileError Payload :=
  if steps = [] then .error .noSteps
  else
    let keep_signatures := extract_preview_signatures preview
    match extract_preview_phrases preview with
    | none => .error .phraseCrash
    | some preview_phrases =>
      match normKeep keep_signatures with
      | some sigs =>
        let matched := steps.filter (fun st => decide (step_signature st ∈ sigs))
        if matched = [] ∨ (preview_phrases ≠ [] ∧ matched.length < max 2 (preview_phrases.length / 2)) then
          let fuzzy := steps.filter (matchesPhrase preview_phrases)
          if fuzzy ≠ [] then build_deterministic_payload loginFound fuzzy none
          else build_deterministic_payload loginFound steps (some sigs)
        else build_deterministic_payload loginFound steps (some sigs)
      | none => build_deterministic_payload loginFound steps none

/-! Emission model: step numbering and applyData dispatch of the rendered
test script. -/

/-- The `original_url` extraction loop over `step_refs`. -/
def extractOriginalUrl (refs : List StepRef) : Str :=
  refs.foldl (fun acc r => let u := orEmpty r.raw.original_url; if u ≠ [] then u else acc) []

/-- Step numbers given to the emitted functional (non-login) steps, using
the shared `test_step_counter`. -/
def functionalNumbersLoop : List StepRef → Nat → List Nat
  | [], _ => []
  | r :: rest, counter =>
    if r.handled_by = some ("login".data) then functionalNumbersLoop rest counter
    else counter :: functionalNumbersLoop rest (counter + 1)

/-- Number of the synthetic navigate-and-authenticate step, when emitted. -/
def syntheticStepNumber (p : Payload) : Option Nat :=
  if extractOriginalUrl p.state.step_refs ≠ [] then some 0 else none

/-- Step numbers of the emitted functional test steps. -/
def emittedFunctionalNumbers (p : Payload) : List Nat :=
  functionalNumbersLoop p.state.step_refs
    (if extractOriginalUrl p.state.step_refs ≠ [] then 1 else 0)

/-- Occurrence index passed for the applyData call of the step at position
`idx`: earlier refs carrying the same data key. -/
def occurrenceIndex (refs : List StepRef) (idx : Nat) (dk : Str) : Nat :=
  ((refs.take idx).filter (fun r => r.data_key = some dk)).length

/-- The (data key, occurrence index) pairs of the emitted applyData calls,
in emission order. -/
def emittedApplyCalls (p : Payload) : List (Str × Nat) :=
  if p.state.data_bindings ≠ [] then
    p.state.step_refs.enum.filterMap (fun pr =>
      if pr.2.handled_by = some ("login".data) then none
      else match pr.2.data_key with
        | some dk => some (dk, occurrenceIndex p.state.step_refs pr.1 dk)
        | none => none)
  else []

/-- Bindings of one data key, in insertion order (the `key_occurrences`
grouping of the page emitter). -/
def bindingsFor (dk : Str) (bs : List Binding) : List Binding :=
  bs.filter (fun b => b.data_key = dk)

/-- Semantics of the generated `applyData` dispatch chain for the group of
data key `dk`: a single-occurrence group dispatches to its one method
regardless of the index; a multi-occurrence group dispatches to the method
generated for occurrence `i` when `i` is in range, else to none. -/
def applyDataDispatch (bs : List Binding) (dk : Str) (i : Nat) : Option Str :=
  if (bindingsFor dk bs).length = 1 then (bindingsFor dk bs).head?.map (·.method_name)
  else ((bindingsFor dk bs).get? i).map (·.method_name)

deriving instance DecidableEq for Except

/-! The persist operation, `persist_payload`: path resolution, containment
check, and per-file writes. Paths are component lists; the framework root
is given already resolved. -/

/-- Resolution of `..` and `.` components over an absolute path
(`Path.resolve`); `..` at the filesystem root stays at the root. -/
def resolveParts : List String → List String → List String
  | acc, [] => acc
  | acc, c :: rest =>
    if c = ".." then resolveParts acc.dropLast rest
    else if c = "." then resolveParts acc rest
    else resolveParts (acc ++ [c]) rest

/-- Resolved absolute components of a path. -/
def resolvePath (parts : List String) : List String := resolveParts [] parts

/-- `os.path.commonpath([root, target]) == root`: the root components lead
the target components. -/
def leadsPath : List String → List String → Bool
  | [], _ => true
  | _ :: _, [] => false
  | a :: as, b :: bs => a = b && leadsPath as bs

/-- One `{path, content}` entry of the payload file lists, the relative
path split into components. -/
structure OutFile where
  path : List String
  content : Str
deriving DecidableEq

/-- Shallow embedding of `persist_payload` over the flattened sequence of
payload file entries: each entry is containment-checked and then written in
order. The result pairs the absolute paths written (the on-disk effect) with
the offending relative path when a check fails, `none` on success. -/
def persist_payload (root : List String) : List OutFile → List (List String) × Option (List String)
  | [] => ([], none)
  | f :: rest =>
    let target := resolvePath (root ++ f.path)
    if leadsPath root target then
      let r := persist_payload root rest
      (target :: r.1, r.2)
    else ([], some f.path)

/-! Concrete fixtures used by counterexamples and witnesses. -/

/-- Locator set with only a css entry. -/
def mkLoc (css : String) : Locators := { css := some css.data }

/-- Fixture: one step whose signature and navigation match nothing in the
preview below. -/
def stepsTotalMiss : List Step :=
  [{ step := some 1, action := some ("Click".data),
     navigation := some ("open dashboard".data), locators := some (mkLoc "#dash") }]

/-- Fixture: a preview with two parseable lines, disjoint from the step
above both by signature and by phrase. -/
def previewTotalMiss : Str :=
  ("1. Fill | Enter Supplier | Data: Allied\n2. Click | Press Save").data

example :
    (generate_script_payload false stepsTotalMiss previewTotalMiss).map
      (fun p => p.state.step_refs.length) = .ok 0 := by decide

/-- Fixture: two resolvable steps carrying an original entry URL. -/
def stepsWithUrl : List Step :=
  [{ step := some 1, action := some ("Fill".data),
     navigation := some ("Enter Supplier".data), data := some ("Allied".data),
     locators := some (mkLoc "#supplier"),
     original_url := some ("https://app.example/start".data) },
   { step := some 2, action := some ("Click".data),
     navigation := some ("Save Invoice".data), locators := some (mkLoc "#save"),
     original_url := some ("https://app.example/start".data) }]

example : (build_deterministic_payload false stepsWithUrl none).map
    emittedFunctionalNumbers = .ok [1, 2] := by decide
example : (build_deterministic_payload false stepsWithUrl none).map
    syntheticStepNumber = .ok (some 0) := by decide

/-- Fixture: second step lacks any locator; recorded ordinal 2. -/
def stepsNoLoc : List Step :=
  [{ step := some 1, action := some ("Fill".data),
     navigation := some ("Enter Supplier".data), data := some ("Allied".data),
     locators := some (mkLoc "#supplier") },
   { step := some 2, action := some ("Click".data),
     navigation := some ("Save Invoice".data), locators := some ({} : Locators) }]

/-- Fixture: signature set retaining only the unresolvable second step. -/
def keepOnlySecond : List Str :=
  [("click|save invoice|").data, ("check|review totals|").data]

example : build_deterministic_payload false stepsNoLoc (some keepOnlySecond) =
    .error (.noSelector 1 (some ("Click".data)) (some ("Save Invoice".data))) := by decide

/-- Fixture: three steps, two of which match the preview signatures and all
three of which match preview phrases. -/
def stepsPartial : List Step :=
  [{ step := some 1, action := some ("Fill".data),
     navigation := some ("Enter Supplier".data), data := some ("Allied".data),
     locators := some (mkLoc "#supplier") },
   { step := some 2, action := some ("Click".data),
     navigation := some ("Save Invoice".data), locators := some (mkLoc "#save") },
   { step := some 3, action := some ("Press".data),
     navigation := some ("review totals now".data), locators := some (mkLoc "#tot") }]

/-- Fixture: preview with three parseable lines yielding five distinct
phrases, two of whose signatures match steps above. -/
def previewPartial : Str :=
  ("1. Fill | Enter Supplier | Data: Allied\n2. Click | Save Invoice\n3. Click | Review Totals").data

example : ((extract_preview_phrases previewPartial).getD []).length = 5 := by decide
example :
    (stepsPartial.filter (fun st =>
      decide (step_signature st ∈ (extract_preview_signatures previewPartial).getD []))).length
      = 2 := by decide
example : (stepsPartial.filter
    (matchesPhrase ((extract_preview_phrases previewPartial).getD []))).length = 3 := by decide
example : (generate_script_payload false stepsPartial previewPartial).map
    (fun p => p.state.step_refs.length) = .ok 2 := by decide

/-- Fixture: two data-entry steps sharing data key `Amount`, plus one click. -/
def stepsAmount : List Step :=
  [{ step := some 1, action := some ("Fill".data),
     navigation := some ("Enter header amount".data), data := some ("Amount: 100".data),
     locators := some (mkLoc "#amt1") },
   { step := some 2, action := some ("Fill".data),
     navigation := some ("Enter line amount".data), data := some ("Amount: 200".data),
     locators := some (mkLoc "#amt2") },
   { step := some 3, action := some ("Click".data),
     navigation := some ("Save Invoice".data), locators := some (mkLoc "#save") }]

example : (build_deterministic_payload false stepsAmount none).map
    (fun p => p.state.data_bindings.map (fun b => (b.data_key, b.method_name))) =
    .ok [(("Amount").data, ("setAmount").data), (("Amount").data, ("setAmount2").data)] := by
  decide
example : (build_deterministic_payload false stepsAmount none).map emittedApplyCalls =
    .ok [(("Amount").data, 0), (("Amount").data, 1)] := by decide
example : (build_deterministic_payload false stepsAmount none).map
    (fun p => (applyDataDispatch p.state.data_bindings (("Amount").data) 0,
               applyDataDispatch p.state.data_bindings (("Amount").data) 1)) =
    .ok (some (("setAmount").data), some (("setAmount2").data)) := by decide

/-- Payload of a successful compilation (used to name concrete payloads in
closed statements). -/
def payloadOf (e : Except CompileError Payload) : Payload :=
  (e.toOption).getD { state := {}, effective := [] }

/-! Claim theorems. -/

/-- C1: when the primary signature filter retains zero steps and the fuzzy
phrase filter also retains zero steps, the compiler does not fall back to
the full step list: the in-loop signature re-check of
`_build_deterministic_payload` skips every step again, and the emitted
payload contains no step refs and no locator entries although the input
step list is non-empty. This exhibits the divergence from the documented
invariant (output non-empty on non-empty input). -/
theorem reconcileTotalMissEmitsEmptyPayload :
    stepsTotalMiss ≠ [] ∧
    (generate_script_payload false stepsTotalMiss previewTotalMiss).map
      (fun p => (p.state.step_refs, p.state.entries)) = .ok ([], []) := by decide

/-- C2 counterexample: the bare-ID selector `#invoiceId` is not rewritten
to the plain attribute-equality form; the source prepends the engine
prefix `xpath=`. -/
theorem normalizeSelectorBareIdKeepsEnginePrefix :
    normalize_selector (("#invoiceId").data) ≠ ("//*[@id=\"invoiceId\"]").data ∧
    normalize_selector (("#invoiceId").data) = ("xpath=//*[@id=\"invoiceId\"]").data := by
  decide

/-- C2 amended: a selector whose trimmed form contains a hash, none of the
structural markers checked by the source, and a non-empty id fragment is
rewritten to the attribute-equality XPath form with the engine prefix
`xpath=`; a selector containing a structural marker always takes the
whitespace/pipe/combinator normalization path `cssNorm`. -/
theorem normalizeSelectorAmended (s : Str) :
    ('#' ∈ pyStrip s → hasStructureMarkers (pyStrip s) = false → idFragment (pyStrip s) ≠ [] →
      normalize_selector s = xpathIdForm (idFragment (pyStrip s))) ∧
    (hasStructureMarkers (pyStrip s) = true → normalize_selector s = cssNorm (pyStrip s)) := by
  constructor
  · intro hmem hmark hfrag
    have hs : s ≠ [] := by
      intro h0
      subst h0
      simp [pyStrip] at hmem
    unfold normalize_selector
    rw [if_neg hs, if_pos ⟨hmem, hmark, hfrag⟩]
  · intro hmark
    by_cases hs : s = []
    · subst hs; decide
    · unfold normalize_selector
      rw [if_neg hs, if_neg ?_]
      rintro ⟨_, h2, _⟩
      rw [hmark] at h2
      exact absurd h2 (by decide)

theorem normalizeSelectorAmendedWitness :
    normalize_selector (("#invoiceId").data) = ("xpath=//*[@id=\"invoiceId\"]").data ∧
    normalize_selector (("div > span:nth-child(2)").data) = ("div>span:nth-child(2)").data := by
  constructor
  · exact (normalizeSelectorAmended (("#invoiceId").data)).1 (by decide) (by decide) (by decide)
  · exact (normalizeSelectorAmended (("div > span:nth-child(2)").data)).2 (by decide)

/-- C3 counterexample: with an original entry URL captured, the synthetic
navigation step takes number 0 and the first functional step is numbered 1,
not 0: the source shares one `test_step_counter` between them. -/
theorem functionalNumbersShareCounter :
    (build_deterministic_payload false stepsWithUrl none).map syntheticStepNumber
      = .ok (some 0) ∧
    (build_deterministic_payload false stepsWithUrl none).map
      (fun p => (emittedFunctionalNumbers p).head?) = .ok (some 1) := by decide

/-- Characterization of the emission counter: the emitted numbers are the
contiguous range starting at the initial counter value, one per retained
non-login ref. -/
theorem functionalNumbersLoopRange (refs : List StepRef) (c : Nat) :
    functionalNumbersLoop refs c =
      List.range' c (refs.filter (fun r => r.handled_by ≠ some (("login").data))).length := by
  induction refs generalizing c with
  | nil => simp [functionalNumbersLoop]
  | cons r rest ih =>
    by_cases h : r.handled_by = some (("login").data)
    · simp [functionalNumbersLoop, h, ih]
    · simp [functionalNumbersLoop, h, ih, List.range'_succ]

/-- C3 amended: functional numbering is gap-free and counts only retained
non-login steps, but it continues the shared counter: it starts at 1 when
the synthetic navigation step is present (which itself is numbered 0) and
at 0 otherwise. -/
theorem functionalNumbersAmended (loginFound : Bool) (steps : List Step)
    (keep0 : Option (List Str)) (p : Payload)
    (_h : build_deterministic_payload loginFound steps keep0 = .ok p) :
    syntheticStepNumber p =
      (if extractOriginalUrl p.state.step_refs ≠ [] then some 0 else none) ∧
    emittedFunctionalNumbers p =
      List.range' (if extractOriginalUrl p.state.step_refs ≠ [] then 1 else 0)
        (p.state.step_refs.filter (fun r => r.handled_by ≠ some (("login").data))).length := by
  refine ⟨rfl, ?_⟩
  unfold emittedFunctionalNumbers
  rw [functionalNumbersLoopRange]

theorem functionalNumbersAmendedWitness :
    syntheticStepNumber (payloadOf (build_deterministic_payload false stepsWithUrl none)) =
      some 0 ∧
    emittedFunctionalNumbers (payloadOf (build_deterministic_payload false stepsWithUrl none)) =
      List.range' 1 2 := by
  have h := functionalNumbersAmended false stepsWithUrl none
    (payloadOf (build_deterministic_payload false stepsWithUrl none)) (by decide)
  refine ⟨?_, ?_⟩
  · rw [h.1]; decide
  · rw [h.2]; decide

/-- C4 counterexample: a payload whose second file escapes the framework
root raises the containment error, but the first file has already been
written: the check is per-file and precedes only that file's write. -/
theorem persistPartialWrite :
    persist_payload ["repo"]
      [{ path := ["tests", "a.spec.ts"], content := [] },
       { path := ["..", "..", "etc", "passwd"], content := [] }] =
      ([["repo", "tests", "a.spec.ts"]], some ["..", "..", "etc", "passwd"]) := by decide

/-- C4 amended: when every file before some entry is path-contained and
that entry escapes the root, persist raises the error before writing the
offending file; exactly the earlier (contained) files have been written.
In particular a payload whose first file escapes writes nothing. -/
theorem persistAmended (root : List String) (pre : List OutFile) (f : OutFile)
    (post : List OutFile)
    (hpre : ∀ g ∈ pre, leadsPath root (resolvePath (root ++ g.path)) = true)
    (hf : leadsPath root (resolvePath (root ++ f.path)) = false) :
    persist_payload root (pre ++ f :: post) =
      (pre.map (fun g => resolvePath (root ++ g.path)), some f.path) := by
  induction pre with
  | nil =>
    simp only [List.nil_append, List.map_nil]
    unfold persist_payload
    rw [if_neg (by simp [hf])]
  | cons g rest ih =>
    have hg := hpre g (by simp)
    simp only [List.cons_append, List.map_cons]
    unfold persist_payload
    rw [if_pos hg, ih (fun q hq => hpre q (by simp [hq]))]

theorem persistAmendedWitness :
    persist_payload ["repo"] [{ path := ["..", "..", "etc", "passwd"], content := [] }] =
      ([], some ["..", "..", "etc", "passwd"]) := by
  have h := persistAmended ["repo"] []
    { path := ["..", "..", "etc", "passwd"], content := [] } [] (by simp) (by decide)
  simpa using h

/-- C6 counterexample: the resolution error names position 1 in the
post-filter effective list, although the failing step's recorded ordinal
is 2 (the signature filter removed the first recorded step). -/
theorem resolutionErrorNamesFilteredPosition :
    build_deterministic_payload false stepsNoLoc (some keepOnlySecond) =
      .error (.noSelector 1 (some (("Click").data)) (some (("Save Invoice").data))) ∧
    stepsNoLoc[1]?.map (·.step) = some (some 2) := by decide

/-- C7 counterexample: with five distinct preview phrases and two
signature-matched steps, the claim's "fewer than half" condition holds
(2·2 < 5) and the fuzzy filter would retain all three steps, yet the
pipeline keeps the signature-filtered result of two steps: the source
triggers the fallback only below `max 2 (phrases // 2)`. -/
theorem fuzzyTriggerThresholdCounterexample :
    ((extract_preview_phrases previewPartial).getD []).length = 5 ∧
    (stepsPartial.filter (fun st =>
      decide (step_signature st ∈ (extract_preview_signatures previewPartial).getD []))).length
      = 2 ∧
    2 * 2 < 5 ∧
    (stepsPartial.filter
      (matchesPhrase ((extract_preview_phrases previewPartial).getD []))).length = 3 ∧
    (generate_script_payload false stepsPartial previewPartial).map
      (fun p => p.state.step_refs.length) = .ok 2 := by decide

/-- C10: the step signature depends only on the trimmed, lowercased
action, navigation, and data fields; every other field (ordinal, locators,
element metadata, expected text, url) is ignored, so signature-based
retention cannot distinguish two steps agreeing on those three. -/
theorem signatureDependsOnlyOnSemanticFields (s1 s2 : Step)
    (ha : pyLower (pyStrip (orEmpty s1.action)) = pyLower (pyStrip (orEmpty s2.action)))
    (hn : pyLower (pyStrip (orEmpty s1.navigation)) = pyLower (pyStrip (orEmpty s2.navigation)))
    (hd : pyLower (pyStrip (orEmpty s1.data)) = pyLower (pyStrip (orEmpty s2.data))) :
    step_signature s1 = step_signature s2 ∧
    ∀ sigs : List Str, (step_signature s1 ∈ sigs ↔ step_signature s2 ∈ sigs) := by
  have he : step_signature s1 = step_signature s2 := by
    unfold step_signature
    rw [ha, hn, hd]
  exact ⟨he, fun sigs => by rw [he]⟩

/-- Fixture: two steps agreeing on action, navigation, data up to trim and
case, differing in ordinal, locators, element, expected. -/
def sigTwinA : Step :=
  { step := some 1, action := some ("Fill").data,
    navigation := some (" Enter Supplier ").data, data := some ("Allied").data,
    expected := some ("ok").data, locators := some (mkLoc "#a") }

/-- Fixture: the twin of `sigTwinA` with other fields changed. -/
def sigTwinB : Step :=
  { step := some 9, action := some ("fill").data,
    navigation := some ("enter supplier").data, data := some ("ALLIED").data,
    locators := some (mkLoc "#b"), element := some { css := some ("#c").data } }

theorem signatureDependsOnlyOnSemanticFieldsWitness :
    step_signature sigTwinA = step_signature sigTwinB ∧ sigTwinA ≠ sigTwinB :=
  ⟨(signatureDependsOnlyOnSemanticFields sigTwinA sigTwinB
      (by decide) (by decide) (by decide)).1, by decide⟩

/-- The step refs appended by one `stepUpdate` carry the processed step as
their raw step. -/
theorem stepUpdate_refs_raw (loginFound : Bool) (index : Nat) (st : Step) (selector : Str)
    (s : BuildState) :
    (stepUpdate loginFound index st selector s).step_refs.map (·.raw) =
      s.step_refs.map (·.raw) ++ [st] := by
  unfold stepUpdate
  cases hl : lookupStr s.selector_to_key selector <;> simp [hl]

/-- With no signature set, the loop keeps every step: the raw steps of the
final refs are the initial ones followed by the whole input. -/
theorem buildLoopNoneRefs (loginFound : Bool) :
    ∀ (steps : List Step) (n : Nat) (s s' : BuildState),
      buildLoop loginFound none steps n s = .ok s' →
      s'.step_refs.map (·.raw) = s.step_refs.map (·.raw) ++ steps := by
  intro steps
  induction steps with
  | nil =>
    intro n s s' h
    simp only [buildLoop, Except.ok.injEq] at h
    subst h
    simp
  | cons st rest ih =>
    intro n s s' h
    unfold buildLoop at h
    rw [if_neg (by simp [keepSkip])] at h
    by_cases hsel : resolveSelector st = []
    · rw [if_pos hsel] at h
      exact absurd h (by simp)
    · rw [if_neg hsel] at h
      have hrec := ih (n + 1) (stepUpdate loginFound n st (resolveSelector st) s) s' h
      rw [hrec, stepUpdate_refs_raw]
      simp

/-- C8: a preview from which fewer than 2 lines parse yields no signature
set, and the reconciler retains every input step, in order, with no
filtering. -/
theorem fewParsedLinesKeepAll (loginFound : Bool) (steps : List Step) (preview : Str)
    (phrases : List Str) (p : Payload)
    (hsig : extract_preview_signatures preview = none)
    (hph : extract_preview_phrases preview = some phrases)
    (hsteps : steps ≠ [])
    (hok : generate_script_payload loginFound steps preview = .ok p) :
    p.effective = steps ∧ p.state.step_refs.map (·.raw) = steps := by
  unfold generate_script_payload at hok
  rw [if_neg hsteps, hsig, hph] at hok
  simp only [normKeep] at hok
  unfold build_deterministic_payload at hok
  simp only [normKeep, effectiveSteps] at hok
  cases hb : buildLoop loginFound none steps 0 {} with
  | error e =>
    rw [hb] at hok
    exact absurd hok (by simp [Except.map])
  | ok s' =>
    rw [hb] at hok
    simp only [Except.map, Except.ok.injEq] at hok
    have hraws := buildLoopNoneRefs loginFound steps 0 {} s' hb
    rw [← hok]
    refine ⟨rfl, ?_⟩
    simpa using hraws

/-- The loop errors at the first non-skipped step whose selector resolves
empty, naming that step's 1-based enumeration position. -/
theorem buildLoopErrorAtFirstFailure (loginFound : Bool) (keep : Option (List Str)) :
    ∀ (pre : List Step) (st : Step) (post : List Step) (n : Nat) (s : BuildState),
      (∀ q ∈ pre, keepSkip keep (step_signature q) = true ∨ resolveSelector q ≠ []) →
      keepSkip keep (step_signature st) = false →
      resolveSelector st = [] →
      buildLoop loginFound keep (pre ++ st :: post) n s =
        .error (.noSelector (n + pre.length + 1) st.action st.navigation) := by
  intro pre
  induction pre with
  | nil =>
    intro st post n s _ hskip hsel
    simp only [List.nil_append, List.length_nil]
    unfold buildLoop
    rw [if_neg (by simp [hskip]), if_pos hsel]
  | cons q rest ih =>
    intro st post n s hpre hskip hsel
    have hq := hpre q (by simp)
    have harith : n + 1 + rest.length + 1 = n + (q :: rest).length + 1 := by
      simp
      omega
    simp only [List.cons_append]
    unfold buildLoop
    by_cases hsk : keepSkip keep (step_signature q) = true
    · rw [if_pos hsk, ih st post (n + 1) s
        (fun r hr => hpre r (by simp [hr])) hskip hsel, harith]
    · have hres : resolveSelector q ≠ [] := by
        cases hq with
        | inl h => exact absurd h hsk
        | inr h => exact h
      rw [if_neg (by simpa using hsk), if_neg hres,
        ih st post (n + 1) _ (fun r hr => hpre r (by simp [hr])) hskip hsel, harith]

/-- C6 amended: when a retained step has no usable selector (and every
earlier step in the effective list is either filtered out or resolvable),
the whole compilation fails with an error naming the step's action,
navigation, and its 1-based position in the post-filter effective list;
the recorded ordinal plays no part. No payload is produced. -/
theorem resolutionErrorAmended (loginFound : Bool) (steps : List Step)
    (keep0 : Option (List Str)) (pre : List Step) (st : Step) (post : List Step)
    (heff : effectiveSteps steps (normKeep keep0) = pre ++ st :: post)
    (hpre : ∀ q ∈ pre, keepSkip (normKeep keep0) (step_signature q) = true ∨
      resolveSelector q ≠ [])
    (hskip : keepSkip (normKeep keep0) (step_signature st) = false)
    (hsel : resolveSelector st = []) :
    build_deterministic_payload loginFound steps keep0 =
      .error (.noSelector (pre.length + 1) st.action st.navigation) := by
  unfold build_deterministic_payload
  rw [heff, buildLoopErrorAtFirstFailure loginFound (normKeep keep0) pre st post 0 {}
    hpre hskip hsel]
  simp [Except.map]

theorem resolutionErrorAmendedWitness :
    build_deterministic_payload false stepsNoLoc (some keepOnlySecond) =
      .error (.noSelector 1 (some (("Click").data)) (some (("Save Invoice").data))) := by
  have h := resolutionErrorAmended false stepsNoLoc (some keepOnlySecond)
    [] (stepsNoLoc.getLast (by decide)) [] (by decide) (by simp) (by decide) (by decide)
  simpa using h

/-- C7 amended: with a usable signature set (at least 2 distinct preview
signatures), the fuzzy phrase re-filter engages exactly when the primary
filter retains zero steps or fewer than `max 2 (phrases / 2)` steps, with
`phrases` the number of distinct non-empty preview phrases; and when the
fuzzy filter retains at least one step the compiler builds from the
fuzzy-matched subset (with no signature filtering), otherwise from the full
list under the signature set. -/
theorem fuzzyTriggerAmended (loginFound : Bool) (steps : List Step) (preview : Str)
    (sigs phrases : List Str)
    (hsteps : steps ≠ [])
    (hsig : extract_preview_signatures preview = some sigs)
    (hlen : ¬ sigs.length < 2)
    (hph : extract_preview_phrases preview = some phrases) :
    generate_script_payload loginFound steps preview =
      (if (steps.filter (fun st => decide (step_signature st ∈ sigs)) = [] ∨
           (phrases ≠ [] ∧ (steps.filter (fun st => decide (step_signature st ∈ sigs))).length <
             max 2 (phrases.length / 2))) ∧ steps.filter (matchesPhrase phrases) ≠ []
       then build_deterministic_payload loginFound (steps.filter (matchesPhrase phrases)) none
       else build_deterministic_payload loginFound steps (some sigs)) := by
  unfold generate_script_payload
  rw [if_neg hsteps, hsig, hph]
  simp only [normKeep, if_neg hlen]
  by_cases hA : steps.filter (fun st => decide (step_signature st ∈ sigs)) = [] ∨
      (phrases ≠ [] ∧ (steps.filter (fun st => decide (step_signature st ∈ sigs))).length <
        max 2 (phrases.length / 2))
  · rw [if_pos hA]
    by_cases hB : steps.filter (matchesPhrase phrases) ≠ []
    · rw [if_pos hB, if_pos ⟨hA, hB⟩]
    · rw [if_neg hB, if_neg (fun hc => hB hc.2)]
  · rw [if_neg hA, if_neg (fun hc => hA hc.1)]

theorem fuzzyTriggerAmendedWitness :
    generate_script_payload false stepsPartial previewPartial =
      build_deterministic_payload false stepsPartial
        (some ((extract_preview_signatures previewPartial).getD [])) := by
  have h := fuzzyTriggerAmended false stepsPartial previewPartial
    ((extract_preview_signatures previewPartial).getD [])
    ((extract_preview_phrases previewPartial).getD [])
    (by decide) (by decide) (by decide) (by decide)
  rw [h, if_neg (by decide)]

theorem fewParsedLinesKeepAllWitness :
    (payloadOf (generate_script_payload false stepsWithUrl (("hello").data))).effective
        = stepsWithUrl ∧
    (payloadOf (generate_script_payload false stepsWithUrl
        (("hello").data))).state.step_refs.map (·.raw) = stepsWithUrl :=
  fewParsedLinesKeepAll false stepsWithUrl (("hello").data) [("hello").data]
    (payloadOf (generate_script_payload false stepsWithUrl (("hello").data)))
    (by decide) (by decide) (by decide) (by decide)

/-! Symbol-table invariants (claim C5). -/

theorem lookupStr_append_left {l1 : List (Str × Str)} {a b : Str}
    (h : lookupStr l1 a = some b) (l2 : List (Str × Str)) :
    lookupStr (l1 ++ l2) a = some b := by
  induction l1 with
  | nil => simp [lookupStr] at h
  | cons p rest ih =>
    by_cases hx : p.1 = a
    · simp only [lookupStr, if_pos hx] at h
      simp [lookupStr, hx, h]
    · simp only [lookupStr, if_neg hx] at h
      simpa [lookupStr, hx] using ih h

theorem lookupStr_append_right {l1 : List (Str × Str)} {a : Str}
    (h : lookupStr l1 a = none) (l2 : List (Str × Str)) :
    lookupStr (l1 ++ l2) a = lookupStr l2 a := by
  induction l1 with
  | nil => simp
  | cons p rest ih =>
    by_cases hx : p.1 = a
    · simp [lookupStr, hx] at h
    · simp only [lookupStr, if_neg hx] at h
      simpa [lookupStr, hx] using ih h

theorem lookupStr_none_not_mem {l : List (Str × Str)} {a : Str}
    (h : lookupStr l a = none) : a ∉ l.map Prod.fst := by
  induction l with
  | nil => simp
  | cons p rest ih =>
    by_cases hx : p.1 = a
    · simp [lookupStr, hx] at h
    · simp only [lookupStr, if_neg hx] at h
      simp [ih h, fun he : p.1 = a => hx he]
      intro he
      exact hx he.symm

theorem lookupStr_mem {l : List (Str × Str)} {a b : Str}
    (h : lookupStr l a = some b) : (a, b) ∈ l := by
  induction l with
  | nil => simp [lookupStr] at h
  | cons p rest ih =>
    by_cases hx : p.1 = a
    · simp only [lookupStr, if_pos hx] at h
      have hb : p.2 = b := Option.some.inj h
      have hp : p = (a, b) := Prod.ext hx hb
      rw [← hp]
      exact List.mem_cons_self _ _
    · simp only [lookupStr, if_neg hx] at h
      exact List.mem_cons_of_mem _ (ih h)

/-- Invariant tying each emitted ref's key to the selector map, with the
map injective in both directions and its keys drawn from the used set. -/
def SymInv (s : BuildState) : Prop :=
  (∀ r ∈ s.step_refs, lookupStr s.selector_to_key r.selector = some r.key) ∧
  (s.selector_to_key.map Prod.fst).Nodup ∧
  (∀ pr ∈ s.selector_to_key, pr.2 ∈ s.used_keys) ∧
  (s.selector_to_key.map Prod.snd).Nodup

theorem assignKey_of_lookup_some {s : BuildState} {selector k : Str}
    (index : Nat) (st : Step) (h : lookupStr s.selector_to_key selector = some k) :
    assignKey index st selector s = (k, s.selector_to_key, s.used_keys) := by
  simp [assignKey, h]

theorem assignKey_of_lookup_none {s : BuildState} {selector : Str}
    (index : Nat) (st : Step) (h : lookupStr s.selector_to_key selector = none) :
    ∃ key, key ∉ s.used_keys ∧
      assignKey index st selector s =
        (key, s.selector_to_key ++ [(selector, key)], s.used_keys ++ [key]) := by
  unfold assignKey
  rw [h]
  refine ⟨_, ?_, rfl⟩
  exact freshName_not_mem _ s.used_keys

theorem stepUpdate_symInv (loginFound : Bool) (index : Nat) (st : Step) (selector : Str)
    (s : BuildState) (hinv : SymInv s) :
    SymInv (stepUpdate loginFound index st selector s) := by
  obtain ⟨h1, h2, h3, h4⟩ := hinv
  cases hl : lookupStr s.selector_to_key selector with
  | some k =>
    rw [show stepUpdate loginFound index st selector s =
      stepUpdate loginFound index st selector s from rfl]
    unfold stepUpdate
    rw [assignKey_of_lookup_some index st hl]
    refine ⟨?_, h2, h3, h4⟩
    intro r hr
    rcases List.mem_append.mp hr with hold | hnew
    · exact h1 r hold
    · have : r.selector = selector ∧ r.key = k := by
        simp at hnew
        subst hnew
        exact ⟨rfl, rfl⟩
      rw [this.1, this.2]
      exact hl
  | none =>
    obtain ⟨key, hfresh, heq⟩ := assignKey_of_lookup_none (s := s) index st hl
    unfold stepUpdate
    rw [heq]
    refine ⟨?_, ?_, ?_, ?_⟩
    · intro r hr
      rcases List.mem_append.mp hr with hold | hnew
      · exact lookupStr_append_left (h1 r hold) _
      · have hrsel : r.selector = selector ∧ r.key = key := by
          simp at hnew
          subst hnew
          exact ⟨rfl, rfl⟩
        rw [hrsel.1, hrsel.2, lookupStr_append_right hl]
        simp [lookupStr]
    · have hnotm := lookupStr_none_not_mem hl
      simp [List.nodup_append, h2, hnotm]
    · intro pr hpr
      rcases List.mem_append.mp hpr with hold | hnew
      · exact List.mem_append_left _ (h3 pr hold)
      · simp at hnew
        subst hnew
        simp
    · have hkeynot : key ∉ s.selector_to_key.map Prod.snd := by
        intro hmem
        obtain ⟨pr, hpr, hpr2⟩ := List.mem_map.mp hmem
        exact hfresh (hpr2 ▸ h3 pr hpr)
      simp [List.nodup_append, h4, hkeynot]

theorem buildLoop_symInv (loginFound : Bool) (keep : Option (List Str)) :
    ∀ (steps : List Step) (n : Nat) (s s' : BuildState), SymInv s →
      buildLoop loginFound keep steps n s = .ok s' → SymInv s' := by
  intro steps
  induction steps with
  | nil =>
    intro n s s' hinv h
    simp only [buildLoop, Except.ok.injEq] at h
    exact h ▸ hinv
  | cons st rest ih =>
    intro n s s' hinv h
    unfold buildLoop at h
    by_cases hsk : keepSkip keep (step_signature st) = true
    · rw [if_pos hsk] at h
      exact ih (n + 1) s s' hinv h
    · rw [if_neg (by simpa using hsk)] at h
      by_cases hsel : resolveSelector st = []
      · rw [if_pos hsel] at h
        exact absurd h (by simp)
      · rw [if_neg hsel] at h
        exact ih (n + 1) _ s' (stepUpdate_symInv loginFound n st _ s hinv) h

/-- C5: in a successful build, two refs with identical resolved selectors
share one key (idempotent reuse) and refs with distinct resolved selectors
get distinct keys (all symbols unique in the run); and the disambiguation
procedure is exactly: try the bare derived name first, then append the
incrementing numeric suffixes 2, 3, ..., taking the first candidate not
already used. -/
theorem symbolTableCorrect (loginFound : Bool) (steps : List Step)
    (keep0 : Option (List Str)) (p : Payload)
    (h : build_deterministic_payload loginFound steps keep0 = .ok p) :
    (∀ r1 ∈ p.state.step_refs, ∀ r2 ∈ p.state.step_refs,
      (r1.selector = r2.selector → r1.key = r2.key) ∧
      (r1.selector ≠ r2.selector → r1.key ≠ r2.key)) ∧
    (∀ base used, freshName base used ∉ used ∧
      (base ∉ used → freshName base used = base) ∧
      ∃ j, freshName base used = suffixName base j ∧
        ∀ i < j, suffixName base i ∈ used) := by
  have hinv : SymInv p.state := by
    unfold build_deterministic_payload at h
    cases hb : buildLoop loginFound (normKeep keep0) (effectiveSteps steps (normKeep keep0))
        0 {} with
    | error e =>
      rw [hb] at h
      exact absurd h (by simp [Except.map])
    | ok s' =>
      rw [hb] at h
      simp only [Except.map, Except.ok.injEq] at h
      have hstart : SymInv {} := by
        refine ⟨?_, ?_, ?_, ?_⟩ <;> simp
      have := buildLoop_symInv loginFound (normKeep keep0) _ 0 {} s' hstart hb
      rw [← h]
      exact this
  refine ⟨?_, ?_⟩
  · intro r1 hr1 r2 hr2
    have k1 := hinv.1 r1 hr1
    have k2 := hinv.1 r2 hr2
    constructor
    · intro hsel
      rw [hsel] at k1
      rw [k1] at k2
      exact (Option.some.injEq _ _).mp k2
    · intro hsel hkey
      have m1 := lookupStr_mem k1
      have m2 := lookupStr_mem k2
      have heq := List.inj_on_of_nodup_map hinv.2.2.2 m1 m2 hkey
      exact hsel (congrArg Prod.fst heq)
  · intro base used
    exact ⟨freshName_not_mem base used, freshName_of_not_mem base used,
      (freshName_spec base used).2⟩

theorem symbolTableCorrectWitness :
    freshName (("amount").data) [("amount").data] ∉ [("amount").data] :=
  ((symbolTableCorrect false stepsWithUrl none
      (payloadOf (build_deterministic_payload false stepsWithUrl none)) (by decide)).2
    (("amount").data) [("amount").data]).1

/-- Fixture: two steps with the identical resolved selector. -/
def stepsDupSel : List Step :=
  [{ step := some 1, action := some ("Fill").data,
     navigation := some ("Enter City").data, data := some ("City: Oslo").data,
     locators := some (mkLoc "#same") },
   { step := some 2, action := some ("Click").data,
     navigation := some ("Pick City").data, locators := some (mkLoc "#same") }]

example : (build_deterministic_payload false stepsDupSel none).map
    (fun p => p.state.step_refs.map (·.key)) =
    .ok [("enterCity").data, ("enterCity").data] := by decide
example : (build_deterministic_payload false stepsDupSel none).map
    (fun p => p.state.entries.length) = .ok 1 := by decide

/-! Data-binding occurrence invariants (claim C9). -/

/-- Data key and method of a ref, when it carries a binding. -/
def refPairs (r : StepRef) : Option (Str × Str) :=
  match r.data_key, r.method_name with
  | some k, some m => some (k, m)
  | _, _ => none

/-- The method bound at a ref for data key `dk`, when the ref carries that
key. -/
def methodFor (dk : Str) (r : StepRef) : Option Str :=
  if r.data_key = some dk then r.method_name else none

/-- Invariant: refs carry a data key exactly when they carry a method; the
bindings project positionally onto the refs that carry bindings; all
methods are registered and pairwise distinct. -/
def BindInv (s : BuildState) : Prop :=
  (∀ r ∈ s.step_refs, (r.data_key = none ∧ r.method_name = none) ∨
    (∃ k m, r.data_key = some k ∧ r.method_name = some m)) ∧
  (s.data_bindings.map (fun b => (b.data_key, b.method_name)) =
    s.step_refs.filterMap refPairs) ∧
  (∀ b ∈ s.data_bindings, b.method_name ∈ s.method_names) ∧
  (s.data_bindings.map (·.method_name)).Nodup

theorem inferBinding_fresh (st : Step) (key : Str) (handled : Bool) (methods : List Str)
    {b : Binding} (h : inferBinding st key handled methods = some b) :
    b.method_name ∉ methods := by
  unfold inferBinding at h
  by_cases hc : (decide (extract_data_key st ≠ []) && !handled) = true
  · rw [if_pos hc] at h
    have hb := Option.some.inj h
    rw [← hb]
    exact freshName_not_mem _ _
  · rw [if_neg hc] at h
    exact absurd h (by simp)

theorem stepUpdate_bindInv (loginFound : Bool) (index : Nat) (st : Step) (selector : Str)
    (s : BuildState) (hinv : BindInv s) :
    BindInv (stepUpdate loginFound index st selector s) := by
  obtain ⟨h0, h1, h2, h3⟩ := hinv
  cases ho : inferBinding st (assignKey index st selector s).1
      (isLoginStep loginFound st (assignKey index st selector s).1) s.method_names with
  | none =>
    simp only [stepUpdate, ho]
    refine ⟨?_, ?_, h2, h3⟩
    · intro r hr
      rcases List.mem_append.mp hr with hold | hnew
      · exact h0 r hold
      · simp at hnew
        subst hnew
        left
        simp
    · rw [List.filterMap_append, h1]
      simp [refPairs]
  | some b =>
    have hfresh := inferBinding_fresh st _ _ _ ho
    simp only [stepUpdate, ho]
    refine ⟨?_, ?_, ?_, ?_⟩
    · intro r hr
      rcases List.mem_append.mp hr with hold | hnew
      · exact h0 r hold
      · simp at hnew
        subst hnew
        right
        exact ⟨b.data_key, b.method_name, by simp, by simp⟩
    · rw [List.filterMap_append, List.map_append, h1]
      simp [refPairs]
    · intro b' hb'
      rcases List.mem_append.mp hb' with hold | hnew
      · exact List.mem_append_left _ (h2 b' hold)
      · simp at hnew
        subst hnew
        simp
    · have hnot : b.method_name ∉ s.data_bindings.map (·.method_name) := by
        intro hmem
        obtain ⟨b', hb', hbm⟩ := List.mem_map.mp hmem
        exact hfresh (hbm ▸ h2 b' hb')
      simp [List.nodup_append, h3, hnot]

theorem buildLoop_bindInv (loginFound : Bool) (keep : Option (List Str)) :
    ∀ (steps : List Step) (n : Nat) (s s' : BuildState), BindInv s →
      buildLoop loginFound keep steps n s = .ok s' → BindInv s' := by
  intro steps
  induction steps with
  | nil =>
    intro n s s' hinv h
    simp only [buildLoop, Except.ok.injEq] at h
    exact h ▸ hinv
  | cons st rest ih =>
    intro n s s' hinv h
    unfold buildLoop at h
    by_cases hsk : keepSkip keep (step_signature st) = true
    · rw [if_pos hsk] at h
      exact ih (n + 1) s s' hinv h
    · rw [if_neg (by simpa using hsk)] at h
      by_cases hsel : resolveSelector st = []
      · rw [if_pos hsel] at h
        exact absurd h (by simp)
      · rw [if_neg hsel] at h
        exact ih (n + 1) _ s' (stepUpdate_bindInv loginFound n st _ s hinv) h

/-- Element at the index counting retained positions: the filterMap image
at the number of earlier contributing elements is the image of the element
itself. -/
theorem filterMap_get_at_take {α β : Type} (f : α → Option β) :
    ∀ (l : List α) (i : Nat) (x : α), l.get? i = some x → (f x).isSome = true →
      (l.filterMap f).get? ((l.take i).filterMap f).length = f x := by
  intro l
  induction l with
  | nil =>
    intro i x h
    simp at h
  | cons a rest ih =>
    intro i x h hs
    cases i with
    | zero =>
      simp only [List.get?_cons_zero, Option.some.injEq] at h
      subst h
      cases hfa : f a with
      | none => rw [hfa] at hs; simp at hs
      | some b => simp [List.filterMap_cons, hfa]
    | succ i' =>
      simp only [List.get?_cons_succ] at h
      cases hfa : f a with
      | none =>
        simpa [List.filterMap_cons, hfa] using ih i' x h hs
      | some b =>
        simpa [List.filterMap_cons, hfa] using ih i' x h hs

theorem filterMap_length_eq_filter_length {α β : Type} (g : α → Option β) (p : α → Bool) :
    ∀ l : List α, (∀ r ∈ l, (g r).isSome = p r) →
      (l.filterMap g).length = (l.filter p).length := by
  intro l
  induction l with
  | nil => intro _; rfl
  | cons a rest ih =>
    intro hall
    have ha := hall a (by simp)
    have hrest := ih (fun r hr => hall r (by simp [hr]))
    cases hg : g a with
    | none =>
      rw [hg] at ha
      simp only [Option.isSome_none] at ha
      simp [List.filterMap_cons, hg, List.filter_cons, ← ha, hrest]
    | some b =>
      rw [hg] at ha
      simp only [Option.isSome_some] at ha
      simp [List.filterMap_cons, hg, List.filter_cons, ← ha, hrest]

/-- The methods of one key's binding group, read off through the pair
projection. -/
theorem bindingsFor_proj (dk : Str) (bs : List Binding) :
    (bindingsFor dk bs).map (·.method_name) =
      ((bs.map (fun b => (b.data_key, b.method_name))).filter
        (fun pr => decide (pr.1 = dk))).map Prod.snd := by
  induction bs with
  | nil => rfl
  | cons b rest ih =>
    unfold bindingsFor at ih ⊢
    by_cases h : b.data_key = dk <;> simp [List.filter_cons, h, ih]

/-- The pair projection of the refs, restricted to one key, carries exactly
the per-key methods in ref order. -/
theorem refsPairs_proj (dk : Str) :
    ∀ refs : List StepRef,
      (∀ r ∈ refs, (r.data_key = none ∧ r.method_name = none) ∨
        (∃ k m, r.data_key = some k ∧ r.method_name = some m)) →
      ((refs.filterMap refPairs).filter (fun pr => decide (pr.1 = dk))).map Prod.snd =
        refs.filterMap (methodFor dk) := by
  intro refs
  induction refs with
  | nil => intro _; rfl
  | cons r rest ih =>
    intro hall
    have hrest := ih (fun q hq => hall q (by simp [hq]))
    rcases hall r (by simp) with ⟨hk, hm⟩ | ⟨k, m, hk, hm⟩
    · simp [List.filterMap_cons, refPairs, methodFor, hk, hm, hrest]
    · by_cases hdk : k = dk
      · subst hdk
        simp [List.filterMap_cons, refPairs, methodFor, hk, hm, List.filter_cons, hrest]
      · simp [List.filterMap_cons, refPairs, methodFor, hk, hm, List.filter_cons, hdk, hrest]

theorem occurrenceIndex_eq_filterMap (refs : List StepRef) (idx : Nat) (dk : Str)
    (hall : ∀ r ∈ refs, (r.data_key = none ∧ r.method_name = none) ∨
      (∃ k m, r.data_key = some k ∧ r.method_name = some m)) :
    occurrenceIndex refs idx dk = ((refs.take idx).filterMap (methodFor dk)).length := by
  unfold occurrenceIndex
  rw [filterMap_length_eq_filter_length (methodFor dk)
    (fun r => decide (r.data_key = some dk)) (refs.take idx) ?_]
  intro r hr
  rcases hall r (List.mem_of_mem_take hr) with ⟨hk, hm⟩ | ⟨k, m, hk, hm⟩
  · simp [methodFor, hk]
  · by_cases hdk : k = dk
    · subst hdk
      simp [methodFor, hk, hm]
    · simp [methodFor, hk, hm, hdk]

/-- C9: in a successful build, the methods generated for one data key are
pairwise distinct (one per occurrence), and for every ref carrying a data
key, dispatching the generated applyData chain for that key at the
occurrence index the emitter passes (the count of earlier refs with the
same key) reaches exactly that ref's own method. -/
theorem occurrenceDispatchCorrect (loginFound : Bool) (steps : List Step)
    (keep0 : Option (List Str)) (p : Payload)
    (h : build_deterministic_payload loginFound steps keep0 = .ok p) :
    (∀ dk, ((bindingsFor dk p.state.data_bindings).map (·.method_name)).Nodup) ∧
    (∀ idx ref dk, p.state.step_refs.get? idx = some ref → ref.data_key = some dk →
      applyDataDispatch p.state.data_bindings dk
        (occurrenceIndex p.state.step_refs idx dk) = ref.method_name) := by
  have hinv : BindInv p.state := by
    unfold build_deterministic_payload at h
    cases hb : buildLoop loginFound (normKeep keep0) (effectiveSteps steps (normKeep keep0))
        0 {} with
    | error e =>
      rw [hb] at h
      exact absurd h (by simp [Except.map])
    | ok s' =>
      rw [hb] at h
      simp only [Except.map, Except.ok.injEq] at h
      have hstart : BindInv {} := by
        refine ⟨?_, ?_, ?_, ?_⟩ <;> simp
      have := buildLoop_bindInv loginFound (normKeep keep0) _ 0 {} s' hstart hb
      rw [← h]
      exact this
  obtain ⟨h0, h1, h2, h3⟩ := hinv
  constructor
  · intro dk
    have hsub : List.Sublist ((bindingsFor dk p.state.data_bindings).map (·.method_name))
        (p.state.data_bindings.map (·.method_name)) :=
      (List.filter_sublist _).map _
    exact h3.sublist hsub
  · intro idx ref dk hget hdk
    have hmemref : ref ∈ p.state.step_refs := List.get?_mem hget
    rcases h0 ref hmemref with ⟨hk, _⟩ | ⟨k, m, hk, hm⟩
    · rw [hk] at hdk
      exact absurd hdk (by simp)
    · have hkdk : k = dk := by
        rw [hk] at hdk
        exact Option.some.inj hdk
      rw [hkdk] at hk
      have hM : (bindingsFor dk p.state.data_bindings).map (·.method_name) =
          p.state.step_refs.filterMap (methodFor dk) := by
        rw [bindingsFor_proj, h1, refsPairs_proj dk _ h0]
      have hocc := occurrenceIndex_eq_filterMap p.state.step_refs idx dk h0
      have hsome : (methodFor dk ref).isSome = true := by
        simp [methodFor, hk, hm]
      have hgetM := filterMap_get_at_take (methodFor dk) p.state.step_refs idx ref hget hsome
      rw [← hocc] at hgetM
      have hMref : (p.state.step_refs.filterMap (methodFor dk)).get?
          (occurrenceIndex p.state.step_refs idx dk) = some m := by
        rw [hgetM]
        simp [methodFor, hk, hm]
      unfold applyDataDispatch
      by_cases hone : (bindingsFor dk p.state.data_bindings).length = 1
      · rw [if_pos hone]
        have hlenM : (p.state.step_refs.filterMap (methodFor dk)).length = 1 := by
          rw [← hM, List.length_map]
          exact hone
        have hocclt : occurrenceIndex p.state.step_refs idx dk <
            (p.state.step_refs.filterMap (methodFor dk)).length :=
          List.get?_eq_some.mp hMref |>.1
        have hocc0 : occurrenceIndex p.state.step_refs idx dk = 0 := by omega
        rw [hm]
        have hhead : ((bindingsFor dk p.state.data_bindings).map (·.method_name)).head?
            = some m := by
          rw [hM, ← List.get?_zero, ← hocc0]
          exact hMref
        rw [List.head?_map] at hhead
        exact hhead
      · rw [if_neg hone, hm]
        rw [show ((bindingsFor dk p.state.data_bindings).get?
              (occurrenceIndex p.state.step_refs idx dk)).map (·.method_name) =
            ((bindingsFor dk p.state.data_bindings).map (·.method_name)).get?
              (occurrenceIndex p.state.step_refs idx dk) from
          (List.get?_map _ _ _).symm, hM]
        exact hMref

/-- Placeholder ref used only to spell a concrete witness below. -/
def dummyRef : StepRef :=
  { key := [], action := [], data := [], raw := {}, selector := [] }

theorem occurrenceDispatchCorrectWitness :
    ((bindingsFor (("Amount").data)
      (payloadOf (build_deterministic_payload false stepsAmount none)).state.data_bindings).map
        (·.method_name)).Nodup ∧
    applyDataDispatch
      (payloadOf (build_deterministic_payload false stepsAmount none)).state.data_bindings
      (("Amount").data)
      (occurrenceIndex
        (payloadOf (build_deterministic_payload false stepsAmount none)).state.step_refs
        1 (("Amount").data)) =
      (((payloadOf (build_deterministic_payload false stepsAmount none)).state.step_refs.get?
        1).getD dummyRef).method_name :=
  ⟨(occurrenceDispatchCorrect false stepsAmount none
      (payloadOf (build_deterministic_payload false stepsAmount none)) (by decide)).1
        (("Amount").data),
   (occurrenceDispatchCorrect false stepsAmount none
      (payloadOf (build_deterministic_payload false stepsAmount none)) (by decide)).2
        1
        (((payloadOf (build_deterministic_payload false stepsAmount none)).state.step_refs.get?
          1).getD dummyRef)
        (("Amount").data) (by decide) (by decide)⟩

end GW
